import Mathlib

/-!
Verification of the InstantGradient core (packages/core: color.ts, gradient.ts,
gpu.ts, utils.ts) against its natural-language specification.

Embedding conventions:
* JavaScript numbers are embedded as elements of a linear ordered field.
  Purely rational computations (interpolation, the contrast audit chain, the
  uniform-buffer packing values) are stated over `ℚ`, which contains every
  finite IEEE-754 double, so concrete runs are decidable.  Code that calls
  transcendental library functions (`Math.pow` with exponent 2.4, `Math.cbrt`,
  `Math.sqrt`, `Math.atan2`, `Math.PI`) is embedded over `ℝ` with exact real
  semantics.
* `Array.prototype.sort((a, b) => a.position - b.position)` is, per
  ECMA-262 (stable sort consistent with the comparator), the unique stable
  ascending reordering by `position`; it is embedded as
  `List.insertionSort (· ≤ · on position)`, which computes exactly that list.
* `[...xs]` spread-copies an array; in the heap model used for the mutation
  claims it allocates a fresh array, and `.sort` mutates only its receiver.
* For the boundary-exactness claim, which is about rounding itself, the
  IEEE-754 binary64 round-to-nearest-even applied after every arithmetic
  operation is modelled explicitly (`flDouble`).
* All decimal literals in the source are exact decimal fractions here.
-/

namespace InstantGradient

/-- Generic utilities, from packages/core/src/utils.ts:
`clamp(value, min, max) = Math.min(Math.max(value, min), max)`. -/
def clamp {α : Type} [LinearOrder α] (value lo hi : α) : α :=
  min (max value lo) hi

/-- A row-major 3×3 matrix, mirroring the flat 9-element arrays used for the
color matrices in color.ts / gradient.ts / gpu.ts. -/
structure Mat3 (α : Type) where
  m0 : α
  m1 : α
  m2 : α
  m3 : α
  m4 : α
  m5 : α
  m6 : α
  m7 : α
  m8 : α

/-- `multiplyMatrix3x3` from color.ts (identical copies live in gradient.ts and
gpu.ts): multiply a 3×3 matrix by a column vector. -/
def multiplyMatrix3x3 {α : Type} [LinearOrderedField α] (M : Mat3 α) (v : α × α × α) :
    α × α × α :=
  (M.m0 * v.1 + M.m1 * v.2.1 + M.m2 * v.2.2,
   M.m3 * v.1 + M.m4 * v.2.1 + M.m5 * v.2.2,
   M.m6 * v.1 + M.m7 * v.2.1 + M.m8 * v.2.2)

/-- OKLab coordinates (color.ts `OKLab`). -/
structure OKLab (α : Type) where
  l : α
  a : α
  b : α
deriving DecidableEq

/-- Oklch coordinates (color.ts `Oklch`). -/
structure Oklch (α : Type) where
  l : α
  c : α
  h : α
deriving DecidableEq

/-- A gradient stop (gradient.ts `GradientStop`). -/
structure GradientStop (α : Type) where
  id : String
  position : α
  color : OKLab α
deriving DecidableEq

/-- Gradient type tag (gradient.ts `GradientType`). -/
inductive GradientType where
  | linear
  | radial
  | conic
deriving DecidableEq

/-- A gradient (gradient.ts `Gradient`). -/
structure Gradient (α : Type) where
  id : String
  type : GradientType
  angle : α
  stops : List (GradientStop α)
deriving DecidableEq

/-- `M_RGB_TO_XYZ` from color.ts (linear RGB → XYZ, D65). -/
def M_RGB_TO_XYZ (α : Type) [LinearOrderedField α] : Mat3 α :=
  ⟨0.4124564, 0.3575761, 0.1804375,
   0.2126729, 0.7151522, 0.0721750,
   0.0193339, 0.1191920, 0.9503041⟩

/-- `M_XYZ_TO_LMS` from color.ts (XYZ → cone response, Bradford). -/
def M_XYZ_TO_LMS (α : Type) [LinearOrderedField α] : Mat3 α :=
  ⟨0.8951, 0.2664, -0.1614,
   -0.7502, 1.7135, 0.0367,
   0.0389, -0.0685, 1.0296⟩

/-- `M_LMS_TO_OKLAB` from color.ts (mapped cone response → OKLab). -/
def M_LMS_TO_OKLAB (α : Type) [LinearOrderedField α] : Mat3 α :=
  ⟨0.2104542553, 0.7936177850, -0.0040720468,
   1.9779984951, -2.4285922050, 0.4505937099,
   0.0259040371, 0.7827717662, -0.8086757660⟩

/-- `M_OKLAB_TO_LMS` from color.ts; gradient.ts and gpu.ts each carry a
byte-identical private copy of this constant. -/
def M_OKLAB_TO_LMS (α : Type) [LinearOrderedField α] : Mat3 α :=
  ⟨1.0000000, 0.3963377774, 0.2158037573,
   1.0000000, -0.1055613458, -0.0638541728,
   1.0000000, -0.0894841775, -1.2914855480⟩

/-- `M_LMS_TO_XYZ` from color.ts; gradient.ts and gpu.ts each carry a
byte-identical private copy of this constant. -/
def M_LMS_TO_XYZ (α : Type) [LinearOrderedField α] : Mat3 α :=
  ⟨0.9869929, -0.1470543, 0.1599627,
   0.4323053, 0.5183603, 0.0492912,
   -0.0085287, 0.0400428, 0.9684867⟩

/-- `M_XYZ_TO_RGB` from color.ts; gradient.ts and gpu.ts each carry a
byte-identical private copy of this constant. -/
def M_XYZ_TO_RGB (α : Type) [LinearOrderedField α] : Mat3 α :=
  ⟨3.2404542, -1.5371385, -0.4985314,
   -0.9692660, 1.8760108, 0.0415560,
   0.0556434, -0.2040259, 1.0572252⟩

/-- `unmapLms` from color.ts (identical copies in gradient.ts and gpu.ts):
cube each component. -/
def unmapLms {α : Type} [LinearOrderedField α] (lms_mapped : α × α × α) : α × α × α :=
  (lms_mapped.1 ^ 3, lms_mapped.2.1 ^ 3, lms_mapped.2.2 ^ 3)

/-- The stable ascending sort by `position` performed by
`[...].sort((a, b) => a.position - b.position)` in toCss, toSvgDefinition,
contrastAudit and renderGradientGL.  ECMA-262 requires `Array.prototype.sort`
to be stable and consistent with the comparator, which determines the result
uniquely; `List.insertionSort` with `≤` on positions computes exactly that
reordering. -/
def sortStops {α : Type} [LinearOrderedField α] (stops : List (GradientStop α)) :
    List (GradientStop α) :=
  stops.insertionSort fun a b => a.position ≤ b.position

/-- `interpolateOKLab` from color.ts: componentwise linear interpolation with
`t` clamped to [0,1], read in exact arithmetic.  `interpolateOKLabFP` below
is the same function with the IEEE-754 binary64 rounding of each arithmetic
operation made explicit. -/
def interpolateOKLab {α : Type} [LinearOrderedField α] (color1 color2 : OKLab α) (t : α) :
    OKLab α :=
  let t := clamp t 0 1
  { l := color1.l + (color2.l - color1.l) * t,
    a := color1.a + (color2.a - color1.a) * t,
    b := color1.b + (color2.b - color1.b) * t }

/-- Truncation toward zero of a rational-valued quantity, as used by the
ECMAScript `%` operator (whose result takes the dividend's sign). -/
def ratTrunc {α : Type} [LinearOrderedField α] [FloorRing α] (q : α) : ℤ :=
  if q < 0 then ⌈q⌉ else ⌊q⌋

/-- The ECMAScript remainder operator `x % y` (for finite nonzero `y`):
`x - y * truncate(x / y)`, so the result has the dividend's sign. -/
def jsRem {α : Type} [LinearOrderedField α] [FloorRing α] (x y : α) : α :=
  x - y * (ratTrunc (x / y) : α)

/-- `interpolateOklch` from color.ts: `t` clamped to [0,1]; lightness and
chroma linear; hue via the branch
`|diff| <= 180 ? diff : (diff > 180 ? diff - 360 : diff + 360)`, then
`(hue1 + deltaHue * t) % 360`, adding 360 if negative. -/
def interpolateOklch {α : Type} [LinearOrderedField α] [FloorRing α]
    (color1 color2 : Oklch α) (t : α) : Oklch α :=
  let t := clamp t 0 1
  let hue1 := color1.h
  let hue2 := color2.h
  let diff := hue2 - hue1
  let deltaHue := if |diff| ≤ 180 then diff else (if 180 < diff then diff - 360 else diff + 360)
  let interpolatedHue := jsRem (hue1 + deltaHue * t) 360
  { l := color1.l + (color2.l - color1.l) * t,
    c := color1.c + (color2.c - color1.c) * t,
    h := if interpolatedHue < 0 then interpolatedHue + 360 else interpolatedHue }

/-- The signed hue delta wrapped into the half-open interval (-180, 180], as
the specification sentence for `lerpPolar` words it: the representative of
`d` modulo 360 lying in (-180, 180]. -/
def wrapHalfOpen {α : Type} [LinearOrderedField α] [FloorRing α] (d : α) : α :=
  d - 360 * (⌈(d - 180) / 360⌉ : α)

/-- `lerpPolar` exactly as the specification describes it: lightness and
chroma linear with `t` clamped to [0,1], hue delta wrapped into (-180, 180],
result hue `(h1 + delta·t) mod 360` normalized non-negative. -/
def specInterpolateOklchHalfOpen {α : Type} [LinearOrderedField α] [FloorRing α]
    (color1 color2 : Oklch α) (t : α) : Oklch α :=
  let t := clamp t 0 1
  let delta := wrapHalfOpen (color2.h - color1.h)
  let hue := jsRem (color1.h + delta * t) 360
  { l := color1.l + (color2.l - color1.l) * t,
    c := color1.c + (color2.c - color1.c) * t,
    h := if hue < 0 then hue + 360 else hue }

/-- The amended hue-delta wrap: into the closed interval [-180, 180], by one
full-turn adjustment, a delta of exactly -180 being kept as -180. -/
def wrapClosed {α : Type} [LinearOrderedField α] (d : α) : α :=
  if d < -180 then d + 360 else if 180 < d then d - 360 else d

/-- `lerpPolar` as amended: hue delta wrapped into the closed interval
[-180, 180] (ties at -180 keep the raw difference's sign), otherwise as the
specification describes it. -/
def specInterpolateOklchClosed {α : Type} [LinearOrderedField α] [FloorRing α]
    (color1 color2 : Oklch α) (t : α) : Oklch α :=
  let t := clamp t 0 1
  let delta := wrapClosed (color2.h - color1.h)
  let hue := jsRem (color1.h + delta * t) 360
  { l := color1.l + (color2.l - color1.l) * t,
    c := color1.c + (color2.c - color1.c) * t,
    h := if hue < 0 then hue + 360 else hue }

/-- Evaluation rule for `clamp` when the value is inside the range. -/
theorem clamp_of_le_of_le {α : Type} [LinearOrder α] {v lo hi : α}
    (h1 : lo ≤ v) (h2 : v ≤ hi) : clamp v lo hi = v := by
  rw [clamp, max_eq_left h1, min_eq_left h2]

/-- Evaluation rule for `clamp` when the value is below the range. -/
theorem clamp_of_le_lo {α : Type} [LinearOrder α] {v lo hi : α}
    (h1 : v ≤ lo) (h2 : lo ≤ hi) : clamp v lo hi = lo := by
  rw [clamp, max_eq_right h1, min_eq_left h2]

/-- Evaluation rule for `clamp` when the value is above the range. -/
theorem clamp_of_hi_le {α : Type} [LinearOrder α] {v lo hi : α}
    (h : hi ≤ v) : clamp v lo hi = hi := by
  rw [clamp, min_eq_right (h.trans (le_max_left v lo))]

/-- Evaluation rule for the JS remainder on a dividend already inside [0, y). -/
theorem jsRem_of_nonneg_of_lt {α : Type} [LinearOrderedField α] [FloorRing α] {x y : α}
    (hx : 0 ≤ x) (hy : 0 < y) (hlt : x < y) : jsRem x y = x := by
  rw [jsRem, ratTrunc, if_neg (not_lt.mpr (div_nonneg hx hy.le))]
  rw [Int.floor_eq_zero_iff.mpr ⟨div_nonneg hx hy.le, (div_lt_one hy).mpr hlt⟩]
  simp

/-- The hue-delta branch of `interpolateOklch` computes exactly the closed
wrap `wrapClosed`: in particular a raw delta of exactly -180 stays -180. -/
theorem hueDelta_eq_wrapClosed {α : Type} [LinearOrderedField α] (d : α) :
    (if |d| ≤ 180 then d else if 180 < d then d - 360 else d + 360) = wrapClosed d := by
  by_cases h1 : 180 < d
  · rw [if_neg (not_le.mpr (lt_of_lt_of_le h1 (le_abs_self d))), if_pos h1,
      wrapClosed, if_neg (by intro h; linarith), if_pos h1]
  · by_cases h2 : d < -180
    · rw [if_neg (not_le.mpr (lt_of_lt_of_le (by linarith) (neg_le_abs d))), if_neg h1,
        wrapClosed, if_pos h2]
    · rw [if_pos (abs_le.mpr ⟨not_lt.mp h2, not_lt.mp h1⟩), wrapClosed, if_neg h2, if_neg h1]

/-- Round a rational to the nearest integer, ties to the even integer — the
rounding direction of IEEE-754 round-to-nearest-even. -/
def rne (q : ℚ) : ℤ :=
  if q - ⌊q⌋ < 1/2 then ⌊q⌋
  else if 1/2 < q - ⌊q⌋ then ⌊q⌋ + 1
  else if ⌊q⌋ % 2 = 0 then ⌊q⌋ else ⌊q⌋ + 1

/-- The binary64 ulp exponent of a value: the spacing of doubles around a
magnitude in [2^e, 2^(e+1)) is 2^(e-52), floored at the subnormal ulp
2^(-1074). -/
def ulpExp (x : ℚ) : ℤ := max (Int.log 2 |x| - 52) (-1074)

/-- Round a rational to the nearest IEEE-754 binary64 value (ties to even):
the rounding JavaScript applies to the exact result of every arithmetic
operation.  Signed zeros and overflow to infinity (magnitudes above about
1.8·10^308) are not modelled; no claim exercises them. -/
def flDouble (x : ℚ) : ℚ :=
  if x = 0 then 0 else (2 : ℚ) ^ ulpExp x * rne (x / (2 : ℚ) ^ ulpExp x)

/-- `interpolateOKLab` as the source executes it in IEEE-754 binary64
arithmetic: each subtraction, multiplication and addition rounds its exact
result to the nearest double.  `clamp` (Math.min of Math.max) returns one of
its arguments unchanged and performs no arithmetic. -/
def interpolateOKLabFP (color1 color2 : OKLab ℚ) (t : ℚ) : OKLab ℚ :=
  let t := clamp t 0 1
  { l := flDouble (color1.l + flDouble (flDouble (color2.l - color1.l) * t)),
    a := flDouble (color1.a + flDouble (flDouble (color2.a - color1.a) * t)),
    b := flDouble (color1.b + flDouble (flDouble (color2.b - color1.b) * t)) }

/-- Characterization of `Int.log 2` from a two-sided power bound. -/
theorem int_log_eq {r : ℚ} {e : ℤ} (hr : 0 < r) (hlo : (2:ℚ)^e ≤ r)
    (hhi : r < (2:ℚ)^(e+1)) : Int.log 2 r = e := by
  have hcast : (((2:ℕ)):ℚ) = (2:ℚ) := by norm_num
  have h1 : e ≤ Int.log 2 r := by
    rw [← Int.zpow_le_iff_le_log (by norm_num) hr, hcast]
    exact hlo
  have h2 : Int.log 2 r < e + 1 := by
    rw [← Int.lt_zpow_iff_log_lt (by norm_num) hr, hcast]
    exact hhi
  omega

/-- Evaluation rule for `rne` when the fractional part is below 1/2. -/
theorem rne_eval {q : ℚ} {m : ℤ} (hm : ⌊q⌋ = m) (hlt : q - m < 1/2) : rne q = m := by
  rw [rne, hm, if_pos hlt]

/-- Evaluation rule for `flDouble` on a normal-range value with known
exponent, mantissa floor, and below-half fractional part. -/
theorem flDouble_eval {x : ℚ} {e m : ℤ} (hx : x ≠ 0) (he : -1022 ≤ e)
    (hlo : (2:ℚ)^e ≤ |x|) (hhi : |x| < (2:ℚ)^(e+1))
    (hfl : ⌊x / (2:ℚ)^(e - 52)⌋ = m) (hfr : x / (2:ℚ)^(e - 52) - m < 1/2) :
    flDouble x = (2:ℚ)^(e - 52) * m := by
  have hlog : Int.log 2 |x| = e := int_log_eq (abs_pos.mpr hx) hlo hhi
  have hulp : ulpExp x = e - 52 := by
    rw [ulpExp, hlog, max_eq_left (by omega)]
  rw [flDouble, if_neg hx, hulp, rne_eval hfl hfr]

/-- 0 is a double. -/
theorem flDouble_zero : flDouble 0 = 0 := by
  rw [flDouble, if_pos rfl]

/-- 1 is a double. -/
theorem flDouble_one : flDouble 1 = 1 := by
  have h := flDouble_eval (x := 1) (e := 0) (m := 2^52) (by norm_num) (by norm_num)
    (by norm_num) (by norm_num)
    (by rw [show (1:ℚ) / (2:ℚ)^((0:ℤ) - 52) = ((2^52 : ℤ) : ℚ) from by
          rw [div_eq_mul_inv, ← zpow_neg]; push_cast; norm_num, Int.floor_intCast])
    (by rw [show (1:ℚ) / (2:ℚ)^((0:ℤ) - 52) = ((2^52 : ℤ) : ℚ) from by
          rw [div_eq_mul_inv, ← zpow_neg]; push_cast; norm_num]; push_cast; norm_num)
  rw [h]
  push_cast
  norm_num

/-- -1 is a double. -/
theorem flDouble_neg_one : flDouble (-1) = -1 := by
  have h := flDouble_eval (x := -1) (e := 0) (m := -(2^52)) (by norm_num) (by norm_num)
    (by norm_num) (by norm_num)
    (by rw [show (-1:ℚ) / (2:ℚ)^((0:ℤ) - 52) = ((-(2^52) : ℤ) : ℚ) from by
          rw [div_eq_mul_inv, ← zpow_neg]; push_cast; norm_num, Int.floor_intCast])
    (by rw [show (-1:ℚ) / (2:ℚ)^((0:ℤ) - 52) = ((-(2^52) : ℤ) : ℚ) from by
          rw [div_eq_mul_inv, ← zpow_neg]; push_cast; norm_num]; push_cast; norm_num)
  rw [h]
  push_cast
  norm_num

/-- The exact value 2^(-100) - 1 rounds to the double -1: its distance to -1
is 2^(-100), far below the ulp 2^(-53) of the binade [1/2, 1). -/
theorem flDouble_tiny_sub_one : flDouble ((2:ℚ)^(-100:ℤ) - 1) = -1 := by
  have hq : ((2:ℚ)^(-100:ℤ) - 1) / (2:ℚ)^((-1:ℤ) - 52) = (2:ℚ)^(-47:ℤ) - 2^53 := by
    rw [div_eq_mul_inv, ← zpow_neg]
    rw [sub_mul, ← zpow_add₀ (by norm_num : (2:ℚ) ≠ 0)]
    norm_num
  have habs : |(2:ℚ)^(-100:ℤ) - 1| = 1 - (2:ℚ)^(-100:ℤ) := by
    rw [abs_of_neg (by norm_num)]
    ring
  have h := flDouble_eval (x := (2:ℚ)^(-100:ℤ) - 1) (e := -1) (m := -(2^53))
    (by norm_num) (by norm_num)
    (by rw [habs]; norm_num) (by rw [habs]; norm_num)
    (by rw [hq, Int.floor_eq_iff]
        constructor
        · push_cast
          norm_num
        · push_cast
          norm_num)
    (by rw [hq]; push_cast; norm_num)
  rw [h]
  push_cast
  norm_num

/-- C7 counterexample: in the source's IEEE-754 double arithmetic the t = 1
endpoint is not exact.  With c1 = ⟨1,0,0⟩ and c2 = ⟨2^(-100),0,0⟩ the
rounded difference fl(c2.l - c1.l) is exactly -1, so the interpolation
returns lightness 1 + (-1)·1 = 0 rather than 2^(-100). -/
theorem interpolateOKLab_double_drift :
    interpolateOKLabFP ⟨1, 0, 0⟩ ⟨(2:ℚ)^(-100:ℤ), 0, 0⟩ 1 ≠ ⟨(2:ℚ)^(-100:ℤ), 0, 0⟩ ∧
    (interpolateOKLabFP ⟨1, 0, 0⟩ ⟨(2:ℚ)^(-100:ℤ), 0, 0⟩ 1).l = 0 := by
  have heval : interpolateOKLabFP ⟨1, 0, 0⟩ ⟨(2:ℚ)^(-100:ℤ), 0, 0⟩ 1 = ⟨0, 0, 0⟩ := by
    simp only [interpolateOKLabFP]
    rw [clamp_of_le_of_le (by norm_num) le_rfl]
    rw [flDouble_tiny_sub_one]
    rw [show ((-1:ℚ) * 1) = -1 from by norm_num, flDouble_neg_one,
      show ((1:ℚ) + -1) = 0 from by norm_num,
      show ((0:ℚ) - 0) = 0 from by norm_num, flDouble_zero,
      show ((0:ℚ) * 1) = 0 from by norm_num, flDouble_zero,
      show ((0:ℚ) + 0) = 0 from by norm_num, flDouble_zero]
  rw [heval]
  constructor
  · simp only [ne_eq, OKLab.mk.injEq, not_and]
    intro h
    norm_num at h
  · rfl

/-- C7 as amended: `interpolateOKLab` (the spec's `lerpOpponent`) returns
exactly c1 at t = 0, component by component, even under IEEE-754 double
rounding — the delta scaled by 0 is exactly 0, and adding 0 returns each
stored component unchanged; the t = 1 endpoint `lerpOpponent(c1,c2,1) == c2`
is exact only in exact arithmetic, where both boundary identities hold —
under double rounding `c1 + (c2 - c1)·1` can drift at t = 1. -/
theorem interpolateOKLab_boundary (c1 c2 : OKLab ℚ)
    (h1l : flDouble c1.l = c1.l) (h1a : flDouble c1.a = c1.a) (h1b : flDouble c1.b = c1.b) :
    interpolateOKLabFP c1 c2 0 = c1 ∧
    (interpolateOKLab c1 c2 0 = c1 ∧ interpolateOKLab c1 c2 1 = c2) := by
  refine ⟨?_, ?_, ?_⟩
  · have hc : clamp (0:ℚ) 0 1 = 0 := clamp_of_le_of_le le_rfl (by norm_num)
    cases c1
    simp only [interpolateOKLabFP, hc, mul_zero, flDouble_zero, add_zero, OKLab.mk.injEq]
    exact ⟨h1l, h1a, h1b⟩
  · cases c1
    cases c2
    simp only [interpolateOKLab, clamp, OKLab.mk.injEq]
    norm_num
  · cases c1
    cases c2
    simp only [interpolateOKLab, clamp, OKLab.mk.injEq]
    norm_num

/-- C7 witness: the amended theorem applied at concrete double components. -/
theorem interpolateOKLab_boundary_witness :
    interpolateOKLabFP ⟨1, 0, 0⟩ ⟨5, 7, 11⟩ 0 = ⟨1, 0, 0⟩ ∧
    (interpolateOKLab (⟨1, 0, 0⟩ : OKLab ℚ) ⟨5, 7, 11⟩ 0 = ⟨1, 0, 0⟩ ∧
      interpolateOKLab (⟨1, 0, 0⟩ : OKLab ℚ) ⟨5, 7, 11⟩ 1 = ⟨5, 7, 11⟩) :=
  interpolateOKLab_boundary ⟨1, 0, 0⟩ ⟨5, 7, 11⟩ flDouble_one flDouble_zero flDouble_zero

/-- C6 counterexample: at hues 180 and 0, the code keeps the raw delta -180
(which lies outside the claimed half-open interval (-180, 180], whose
representative of -180 is +180), so at t = 1/2 the code's hue is 90 while
the claimed wrap gives 270. -/
theorem interpolateOklch_halfOpen_false :
    interpolateOklch (α := ℚ) ⟨1/2, 1/10, 180⟩ ⟨1/2, 1/10, 0⟩ (1/2) ≠
      specInterpolateOklchHalfOpen (α := ℚ) ⟨1/2, 1/10, 180⟩ ⟨1/2, 1/10, 0⟩ (1/2) ∧
    (interpolateOklch (α := ℚ) ⟨1/2, 1/10, 180⟩ ⟨1/2, 1/10, 0⟩ (1/2)).h = 90 ∧
    (specInterpolateOklchHalfOpen (α := ℚ) ⟨1/2, 1/10, 180⟩ ⟨1/2, 1/10, 0⟩ (1/2)).h = 270 := by
  have hcode : interpolateOklch (α := ℚ) ⟨1/2, 1/10, 180⟩ ⟨1/2, 1/10, 0⟩ (1/2) =
      ⟨1/2, 1/10, 90⟩ := by
    simp only [interpolateOklch]
    rw [clamp_of_le_of_le (by norm_num) (by norm_num)]
    rw [if_pos (show |(0:ℚ) - 180| ≤ 180 from by norm_num)]
    rw [show (180 : ℚ) + (0 - 180) * (1 / 2) = 90 from by norm_num]
    rw [jsRem_of_nonneg_of_lt (by norm_num) (by norm_num) (by norm_num)]
    rw [if_neg (show ¬((90:ℚ) < 0) from by norm_num)]
    simp only [Oklch.mk.injEq]
    norm_num
  have hspec : specInterpolateOklchHalfOpen (α := ℚ) ⟨1/2, 1/10, 180⟩ ⟨1/2, 1/10, 0⟩ (1/2) =
      ⟨1/2, 1/10, 270⟩ := by
    simp only [specInterpolateOklchHalfOpen, wrapHalfOpen]
    rw [clamp_of_le_of_le (by norm_num) (by norm_num)]
    rw [show ((0:ℚ) - 180 - 180) / 360 = ((-1 : ℤ) : ℚ) from by norm_num, Int.ceil_intCast]
    rw [show (180 : ℚ) + ((0 : ℚ) - 180 - 360 * ((-1 : ℤ) : ℚ)) * (1 / 2) = 270 from by norm_num]
    rw [jsRem_of_nonneg_of_lt (by norm_num) (by norm_num) (by norm_num)]
    rw [if_neg (show ¬((270:ℚ) < 0) from by norm_num)]
    simp only [Oklch.mk.injEq]
    norm_num
  refine ⟨?_, ?_, ?_⟩
  · rw [hcode, hspec]
    simp only [ne_eq, Oklch.mk.injEq, not_and]
    intro _ _
    norm_num
  · rw [hcode]
  · rw [hspec]

/-- C6 as amended: for polar colors whose hues lie in the normalized range
[0, 360), `interpolateOklch` clamps t to [0,1], interpolates lightness and
chroma linearly, and interpolates hue using the signed delta wrapped into the
closed interval [-180, 180] (a delta of exactly -180 is kept as -180 rather
than flipped to +180), the result hue being (h1 + delta·t) mod 360
normalized to be non-negative. -/
theorem interpolateOklch_spec (c1 c2 : Oklch ℚ) (t : ℚ)
    (h1lo : 0 ≤ c1.h) (h1hi : c1.h < 360) (h2lo : 0 ≤ c2.h) (h2hi : c2.h < 360) :
    (-180 ≤ wrapClosed (c2.h - c1.h) ∧ wrapClosed (c2.h - c1.h) ≤ 180) ∧
    interpolateOklch c1 c2 t = specInterpolateOklchClosed c1 c2 t := by
  constructor
  · simp only [wrapClosed]
    split_ifs <;> constructor <;> linarith
  · simp only [interpolateOklch, specInterpolateOklchClosed]
    rw [hueDelta_eq_wrapClosed]

/-- C6 witness: the amended theorem applied at concrete in-range hues. -/
theorem interpolateOklch_spec_witness :
    (-180 ≤ wrapClosed ((270 : ℚ) - 90) ∧ wrapClosed ((270 : ℚ) - 90) ≤ 180) ∧
    interpolateOklch (α := ℚ) ⟨1, 1/2, 90⟩ ⟨0, 1, 270⟩ (1/4) =
      specInterpolateOklchClosed (α := ℚ) ⟨1, 1/2, 90⟩ ⟨0, 1, 270⟩ (1/4) :=
  interpolateOklch_spec ⟨1, 1/2, 90⟩ ⟨0, 1, 270⟩ (1/4)
    (by norm_num) (by norm_num) (by norm_num) (by norm_num)

/-- `oklabToLinearRgb` from gpu.ts; gradient.ts defines the byte-identical
local helper `getLinearRgb` inside its contrast-ratio computation: OKLab →
mapped cone response → cube → XYZ → linear RGB, each channel clamped to
[0, 1]. -/
def oklabToLinearRgb {α : Type} [LinearOrderedField α] (oklab : OKLab α) : α × α × α :=
  let lms_mapped := multiplyMatrix3x3 (M_OKLAB_TO_LMS α) (oklab.l, oklab.a, oklab.b)
  let lms := unmapLms lms_mapped
  let xyz := multiplyMatrix3x3 (M_LMS_TO_XYZ α) lms
  let rgb := multiplyMatrix3x3 (M_XYZ_TO_RGB α) xyz
  (clamp rgb.1 0 1, clamp rgb.2.1 0 1, clamp rgb.2.2 0 1)

/-- `calculateRelativeLuminance` from gradient.ts: BT.709 fixed-weight sum of
linear RGB channels. -/
def calculateRelativeLuminance {α : Type} [LinearOrderedField α]
    (r_linear g_linear b_linear : α) : α :=
  0.2126 * r_linear + 0.7152 * g_linear + 0.0722 * b_linear

/-- `calculateContrastRatio` from gradient.ts: WCAG contrast ratio between two
OKLab colors, via each color's clamped linear RGB and relative luminance. -/
def calculateContrastRatio {α : Type} [LinearOrderedField α] (color1 color2 : OKLab α) : α :=
  let rgb1 := oklabToLinearRgb color1
  let rgb2 := oklabToLinearRgb color2
  let lum1 := calculateRelativeLuminance rgb1.1 rgb1.2.1 rgb1.2.2
  let lum2 := calculateRelativeLuminance rgb2.1 rgb2.2.1 rgb2.2.2
  let lighter := max lum1 lum2
  let darker := min lum1 lum2
  (lighter + 0.05) / (darker + 0.05)

/-- The indexed for-loop inside `contrastAudit` (gradient.ts): walk the sorted
stop array left to right and push the id pair of each adjacent pair whose
contrast ratio is below the threshold. -/
def auditLoop {α : Type} [LinearOrderedField α] (threshold : α) :
    List (GradientStop α) → List (String × String)
  | stop1 :: stop2 :: rest =>
      (if calculateContrastRatio stop1.color stop2.color < threshold
        then [(stop1.id, stop2.id)] else [])
        ++ auditLoop threshold (stop2 :: rest)
  | _ => []

/-- `contrastAudit` from gradient.ts (source default threshold: 4.5): empty
for fewer than 2 stops, otherwise the failing adjacent pairs of the sorted
stop array. -/
def contrastAudit {α : Type} [LinearOrderedField α] (g : Gradient α) (threshold : α) :
    List (String × String) :=
  if g.stops.length < 2 then [] else auditLoop threshold (sortStops g.stops)

/-- Relative luminance as the specification words it: run the inverse color
chain down to linear RGB only (opponent → cone → cube → XYZ → linear RGB,
clamped to [0, 1] per channel before luminance weighting), then the
fixed-weight sum 0.2126·R + 0.7152·G + 0.0722·B. -/
def specLuminance {α : Type} [LinearOrderedField α] (c : OKLab α) : α :=
  let rgb := oklabToLinearRgb c
  0.2126 * rgb.1 + 0.7152 * rgb.2.1 + 0.0722 * rgb.2.2

/-- Contrast as the specification words it: (L_lighter + 0.05) / (L_darker + 0.05). -/
def specContrast {α : Type} [LinearOrderedField α] (c1 c2 : OKLab α) : α :=
  (max (specLuminance c1) (specLuminance c2) + 0.05) /
    (min (specLuminance c1) (specLuminance c2) + 0.05)

/-- `contrastAudit` as the specification words it: empty when fewer than 2
stops; otherwise, over the stably sorted stops, each adjacent pair whose
contrast is below the threshold contributes exactly one id pair
(earlier-position id first), in left-to-right adjacency order. -/
def specContrastAudit {α : Type} [LinearOrderedField α] (g : Gradient α) (threshold : α) :
    List (String × String) :=
  if g.stops.length < 2 then []
  else
    ((((sortStops g.stops).zip (sortStops g.stops).tail).filter
      fun p => specContrast p.1.color p.2.color < threshold).map
      fun p => (p.1.id, p.2.id))

/-- The code's contrast ratio and the specification's contrast agree. -/
theorem calculateContrastRatio_eq_specContrast {α : Type} [LinearOrderedField α]
    (c1 c2 : OKLab α) : calculateContrastRatio c1 c2 = specContrast c1 c2 := rfl

/-- The audit loop enumerates exactly the failing adjacent pairs of its input,
in order. -/
theorem auditLoop_eq_zip {α : Type} [LinearOrderedField α] (threshold : α) :
    ∀ l : List (GradientStop α),
      auditLoop threshold l =
        ((l.zip l.tail).filter fun p => specContrast p.1.color p.2.color < threshold).map
          fun p => (p.1.id, p.2.id)
  | [] => rfl
  | [_] => rfl
  | s1 :: s2 :: rest => by
    have ih := auditLoop_eq_zip threshold (s2 :: rest)
    simp only [auditLoop, List.tail_cons, List.zip_cons_cons, List.filter_cons, ih]
    by_cases hc : specContrast s1.color s2.color < threshold
    · rw [if_pos (calculateContrastRatio_eq_specContrast s1.color s2.color ▸ hc),
        if_pos (by simpa using hc)]
      simp
    · rw [if_neg (calculateContrastRatio_eq_specContrast s1.color s2.color ▸ hc),
        if_neg (by simpa using hc)]
      simp

/-- C2: `contrastAudit` behaves exactly as specified: empty below 2 stops,
otherwise one id pair (earlier-position id first, left-to-right adjacency
order) per adjacent pair of the stably sorted stops whose WCAG contrast —
luminance from the clamped opponent→cone→cube→XYZ→linear-RGB chain with
BT.709 weights, ratio (L_lighter + 0.05)/(L_darker + 0.05) — is below the
threshold; the internal sort is an ascending stable reordering by position. -/
theorem contrastAudit_spec (g : Gradient ℚ) (threshold : ℚ) :
    contrastAudit g threshold = specContrastAudit g threshold ∧
    List.Sorted (fun a b : GradientStop ℚ => a.position ≤ b.position) (sortStops g.stops) ∧
    List.Perm (sortStops g.stops) g.stops := by
  haveI : IsTotal (GradientStop ℚ) (fun a b => a.position ≤ b.position) :=
    ⟨fun a b => le_total a.position b.position⟩
  haveI : IsTrans (GradientStop ℚ) (fun a b => a.position ≤ b.position) :=
    ⟨fun _ _ _ h1 h2 => le_trans h1 h2⟩
  refine ⟨?_, List.sorted_insertionSort _ _, List.perm_insertionSort _ _⟩
  simp only [contrastAudit, specContrastAudit, auditLoop_eq_zip]

/-- With pairwise distinct positions, any two permutations of the same stop
list have the same stable sort. -/
theorem sortStops_congr_of_perm {l₁ l₂ : List (GradientStop ℚ)} (hp : List.Perm l₁ l₂)
    (hd : l₁.Pairwise fun a b => a.position ≠ b.position) :
    sortStops l₁ = sortStops l₂ := by
  haveI : IsTotal (GradientStop ℚ) (fun a b => a.position ≤ b.position) :=
    ⟨fun a b => le_total a.position b.position⟩
  haveI : IsTrans (GradientStop ℚ) (fun a b => a.position ≤ b.position) :=
    ⟨fun _ _ _ h1 h2 => le_trans h1 h2⟩
  haveI : IsAntisymm (GradientStop ℚ) (fun a b => a.position < b.position) :=
    ⟨fun _ _ h1 h2 => absurd h2 (not_lt.mpr h1.le)⟩
  have hsymm : ∀ {x y : GradientStop ℚ}, x.position ≠ y.position → y.position ≠ x.position :=
    fun hab h => hab h.symm
  have hperm : List.Perm (sortStops l₁) (sortStops l₂) :=
    (List.perm_insertionSort _ l₁).trans (hp.trans (List.perm_insertionSort _ l₂).symm)
  have hstrict : ∀ l : List (GradientStop ℚ), l.Pairwise (fun a b => a.position ≠ b.position) →
      List.Sorted (fun a b : GradientStop ℚ => a.position < b.position) (sortStops l) := by
    intro l hdl
    have hs : List.Sorted (fun a b : GradientStop ℚ => a.position ≤ b.position) (sortStops l) :=
      List.sorted_insertionSort _ l
    have hne : (sortStops l).Pairwise (fun a b => a.position ≠ b.position) :=
      (((List.perm_insertionSort _ l).pairwise_iff hsymm).mpr hdl)
    exact (hs.and hne).imp fun h => lt_of_le_of_ne h.1 h.2
  exact List.eq_of_perm_of_sorted hperm (hstrict l₁ hd)
    (hstrict l₂ ((hp.pairwise_iff hsymm).mp hd))

/-- C8: when stop positions are pairwise distinct, reversing the input stop
array leaves the contrast audit's output (id pairs and their order)
unchanged, because the audit's internal stable sort produces the same sorted
sequence. -/
theorem contrastAudit_reverse (g : Gradient ℚ) (threshold : ℚ)
    (hd : g.stops.Pairwise fun a b => a.position ≠ b.position) :
    contrastAudit { g with stops := g.stops.reverse } threshold = contrastAudit g threshold := by
  simp only [contrastAudit, List.length_reverse]
  rw [sortStops_congr_of_perm (List.reverse_perm g.stops)
    ((List.reverse_perm g.stops).pairwise_iff (fun hab h => hab h.symm) |>.mpr hd)]

/-- C8 witness: a concrete two-stop gradient with distinct positions. -/
theorem contrastAudit_reverse_witness :
    contrastAudit
      { id := "g", type := .linear, angle := 0,
        stops := ([⟨"a", 0, ⟨0, 0, 0⟩⟩, ⟨"b", 1, ⟨0, 0, 0⟩⟩] :
          List (GradientStop ℚ)).reverse } (4.5 : ℚ) =
    contrastAudit
      { id := "g", type := .linear, angle := 0,
        stops := ([⟨"a", 0, ⟨0, 0, 0⟩⟩, ⟨"b", 1, ⟨0, 0, 0⟩⟩] : List (GradientStop ℚ)) }
      (4.5 : ℚ) :=
  contrastAudit_reverse
    { id := "g", type := .linear, angle := 0,
      stops := [⟨"a", 0, ⟨0, 0, 0⟩⟩, ⟨"b", 1, ⟨0, 0, 0⟩⟩] } 4.5
    (by norm_num [List.pairwise_cons])

/-- A heap of JS arrays: the mutable store in which stop arrays live.  A
reference is an index into the heap; reading a dangling reference yields the
empty array.  This models exactly the array operations the core performs, so
that in-place mutation (`Array.prototype.sort` mutates its receiver) is
observable. -/
abbrev Heap (σ : Type) : Type := List (List σ)

/-- Allocate a fresh array (e.g. the result of a `[...xs]` spread or of
`.slice`): returns the new heap and the new reference. -/
def heapAlloc {σ : Type} (h : Heap σ) (xs : List σ) : Heap σ × ℕ :=
  (h ++ [xs], h.length)

/-- `Array.prototype.sort` with the position comparator: sorts the array at
reference `r` in place. -/
def heapSortAt {σ : Type} (pos : σ → ℚ) (h : Heap σ) (r : ℕ) : Heap σ :=
  h.set r ((h.getD r []).insertionSort fun a b => pos a ≤ pos b)

/-- `[...stops].sort((a, b) => a.position - b.position)`: allocate a spread
copy of the array at `r`, then sort the copy in place; returns the final heap
and the copy's reference. -/
def sortedCopy {σ : Type} (pos : σ → ℚ) (h : Heap σ) (r : ℕ) : Heap σ × ℕ :=
  let alloc := heapAlloc h (h.getD r [])
  (heapSortAt pos alloc.1 alloc.2, alloc.2)

/-- The stops-array writes performed by `toCss` (gradient.ts):
`const sortedStops = [...g.stops].sort(...)` — the only array mutation in the
function; the rest of the body only reads the copy. -/
def toCssStopsHeap {σ : Type} (pos : σ → ℚ) (h : Heap σ) (r : ℕ) : Heap σ :=
  (sortedCopy pos h r).1

/-- The stops-array writes performed by `toSvgDefinition` (gradient.ts):
identical spread-copy-then-sort pattern. -/
def toSvgDefinitionStopsHeap {σ : Type} (pos : σ → ℚ) (h : Heap σ) (r : ℕ) : Heap σ :=
  (sortedCopy pos h r).1

/-- The stops-array writes performed by `contrastAudit` (gradient.ts):
identical spread-copy-then-sort pattern (the loop afterwards only reads). -/
def contrastAuditStopsHeap {σ : Type} (pos : σ → ℚ) (h : Heap σ) (r : ℕ) : Heap σ :=
  (sortedCopy pos h r).1

/-- The stops-array writes performed by `renderGradientGL` (gpu.ts):
`[...gradient.stops].sort(...).slice(0, MAX_STOPS)` — spread copy, in-place
sort of the copy, then `.slice` allocates a further fresh array of its first
8 elements. -/
def renderGradientGLStopsHeap {σ : Type} (pos : σ → ℚ) (h : Heap σ) (r : ℕ) : Heap σ :=
  let sc := sortedCopy pos h r
  (heapAlloc sc.1 ((sc.1.getD sc.2 []).take 8)).1

/-- Reading a live reference is unchanged by an allocation. -/
theorem heapAlloc_read {σ : Type} (h : Heap σ) (xs : List σ) {r : ℕ} (hr : r < h.length) :
    (heapAlloc h xs).1.getD r [] = h.getD r [] := by
  simp [heapAlloc, List.getD_eq_getElem?_getD, List.getElem?_append_left hr]

/-- Reading a reference other than the sorted one is unchanged by an in-place
sort. -/
theorem heapSortAt_read {σ : Type} (pos : σ → ℚ) (h : Heap σ) {r r' : ℕ} (hne : r ≠ r') :
    (heapSortAt pos h r').getD r [] = h.getD r [] := by
  simp [heapSortAt, List.getD_eq_getElem?_getD, List.getElem?_set_ne hne.symm]

/-- The spread-copy-then-sort pattern leaves the original array unchanged. -/
theorem sortedCopy_read {σ : Type} (pos : σ → ℚ) (h : Heap σ) {r : ℕ} (hr : r < h.length) :
    (sortedCopy pos h r).1.getD r [] = h.getD r [] := by
  rw [sortedCopy]
  rw [heapSortAt_read pos _ (by simpa [heapAlloc] using hr.ne)]
  exact heapAlloc_read h _ hr

/-- C9: no core operation mutates its input gradient's stops array: after the
array operations of `toCss`, `toSvgDefinition`, `contrastAudit`, or
`renderGradientGL`, the array at the gradient's reference is unchanged
(length, element order, and every element); each operation sorts only a
private copy.  The remaining fields of a gradient are never assigned by the
core, so the whole gradient value is unchanged. -/
theorem core_ops_do_not_mutate_stops {σ : Type} (pos : σ → ℚ) (h : Heap σ) (r : ℕ)
    (hr : r < h.length) :
    (toCssStopsHeap pos h r).getD r [] = h.getD r [] ∧
    (toSvgDefinitionStopsHeap pos h r).getD r [] = h.getD r [] ∧
    (contrastAuditStopsHeap pos h r).getD r [] = h.getD r [] ∧
    (renderGradientGLStopsHeap pos h r).getD r [] = h.getD r [] := by
  refine ⟨sortedCopy_read pos h hr, sortedCopy_read pos h hr, sortedCopy_read pos h hr, ?_⟩
  rw [renderGradientGLStopsHeap]
  rw [heapAlloc_read _ _ (by simp [sortedCopy, heapSortAt, heapAlloc]; omega)]
  exact sortedCopy_read pos h hr

/-- C9 witness: a concrete singleton heap holding a two-element array. -/
theorem core_ops_do_not_mutate_stops_witness :
    (toCssStopsHeap (fun _ => (0 : ℚ)) [[1, 2]] 0).getD 0 [] = [[1, 2]].getD 0 [] ∧
    (toSvgDefinitionStopsHeap (fun _ => (0 : ℚ)) [[1, 2]] 0).getD 0 [] = [[1, 2]].getD 0 [] ∧
    (contrastAuditStopsHeap (fun _ => (0 : ℚ)) [[1, 2]] 0).getD 0 [] = [[1, 2]].getD 0 [] ∧
    (renderGradientGLStopsHeap (fun _ => (0 : ℚ)) [[1, 2]] 0).getD 0 [] =
      [[1, 2]].getD 0 [] :=
  core_ops_do_not_mutate_stops (σ := ℕ) (fun _ => (0 : ℚ)) [[1, 2]] 0 (by norm_num)

/-- `SRGB_ALPHA` from color.ts. -/
def SRGB_ALPHA : ℝ := 0.055

/-- `SRGB_GAMMA` from color.ts. -/
def SRGB_GAMMA : ℝ := 2.4

/-- `SRGB_THRESHOLD` from color.ts. -/
def SRGB_THRESHOLD : ℝ := 0.04045

/-- `SRGB_LINEAR_FACTOR` from color.ts. -/
def SRGB_LINEAR_FACTOR : ℝ := 12.92

/-- `srgbToLinear` from color.ts; `Math.pow` on the nonnegative arguments
reachable here is real exponentiation. -/
noncomputable def srgbToLinear (c : ℝ) : ℝ :=
  if c ≤ SRGB_THRESHOLD then c / SRGB_LINEAR_FACTOR
  else ((c + SRGB_ALPHA) / (1 + SRGB_ALPHA)) ^ SRGB_GAMMA

/-- `linearToSrgb` from color.ts. -/
noncomputable def linearToSrgb (c : ℝ) : ℝ :=
  if c ≤ 0.0031308 then SRGB_LINEAR_FACTOR * c
  else (1 + SRGB_ALPHA) * c ^ ((1 : ℝ) / SRGB_GAMMA) - SRGB_ALPHA

/-- `Math.cbrt`: the real cube root, odd in its argument. -/
noncomputable def cbrt (x : ℝ) : ℝ :=
  if x < 0 then -((-x) ^ ((1 : ℝ) / 3)) else x ^ ((1 : ℝ) / 3)

/-- `mapLms` from color.ts: componentwise cube root. -/
noncomputable def mapLms (lms : ℝ × ℝ × ℝ) : ℝ × ℝ × ℝ :=
  (cbrt lms.1, cbrt lms.2.1, cbrt lms.2.2)

/-- Recognizer for the hex digits accepted by `parseInt(·, 16)`:
the characters 0-9 (codes 48-57), a-f (97-102) and A-F (65-70). -/
def isHexDigit (c : Char) : Bool :=
  (48 ≤ c.toNat && c.toNat ≤ 57) || (97 ≤ c.toNat && c.toNat ≤ 102) ||
    (65 ≤ c.toNat && c.toNat ≤ 70)

/-- The numeric value of a hex digit character (0 for non-digits, unused). -/
def hexDigitVal (c : Char) : ℕ :=
  if 48 ≤ c.toNat ∧ c.toNat ≤ 57 then c.toNat - 48
  else if 97 ≤ c.toNat ∧ c.toNat ≤ 102 then c.toNat - 87
  else if 65 ≤ c.toNat ∧ c.toNat ≤ 70 then c.toNat - 55
  else 0

/-- ECMAScript `parseInt(s, 16)` for strings without leading whitespace, a
sign, or a "0x" prefix (the shapes exercised by the claims): the longest
hex-digit prefix is the parsed value; an empty prefix gives NaN, modelled as
`none`.  Results at or above 2^53 lose double precision in JS; that rounding
is not modelled (six hex digits stay far below it). -/
def parseIntHex (chars : List Char) : Option ℕ :=
  let ds := chars.takeWhile isHexDigit
  if ds.isEmpty then none else some (ds.foldl (fun n c => n * 16 + hexDigitVal c) 0)

/-- The ToInt32 conversion JS bitwise operators apply to their operands：NaN
becomes 0 and finite values wrap into [-2^31, 2^31). -/
def toInt32 : Option ℕ → ℤ
  | none => 0
  | some n => let m : ℕ := n % 2 ^ 32; if m < 2 ^ 31 then (m : ℤ) else (m : ℤ) - 2 ^ 32

/-- The JS `>>` operator on an int32 value: sign-propagating shift, i.e.
floor division by a power of two. -/
def jsShr (x : ℤ) (k : ℕ) : ℤ := Int.fdiv x (2 ^ k)

/-- The JS `& 255` operation on an int32 value: the low 8 bits of the
two's-complement representation. -/
def jsAnd255 (x : ℤ) : ℤ := x % 256

/-- `hexToOKLab` from color.ts.  The source performs no validation:
`parseInt(hex.slice(1), 16)` is fed straight into the bit operations, so any
input yields a color. -/
noncomputable def hexToOKLab (hex : String) : OKLab ℝ :=
  let bigint := toInt32 (parseIntHex (hex.data.drop 1))
  let r_srgb : ℝ := ((jsAnd255 (jsShr bigint 16) : ℤ) : ℝ) / 255
  let g_srgb : ℝ := ((jsAnd255 (jsShr bigint 8) : ℤ) : ℝ) / 255
  let b_srgb : ℝ := ((jsAnd255 bigint : ℤ) : ℝ) / 255
  let r_linear := srgbToLinear r_srgb
  let g_linear := srgbToLinear g_srgb
  let b_linear := srgbToLinear b_srgb
  let xyz := multiplyMatrix3x3 (M_RGB_TO_XYZ ℝ) (r_linear, g_linear, b_linear)
  let lms := multiplyMatrix3x3 (M_XYZ_TO_LMS ℝ) xyz
  let lms_mapped := mapLms lms
  let lab := multiplyMatrix3x3 (M_LMS_TO_OKLAB ℝ) lms_mapped
  { l := lab.1, a := lab.2.1, b := lab.2.2 }

/-- `Math.round`: floor(x + 1/2), ties toward +∞. -/
noncomputable def jsRound (x : ℝ) : ℤ := ⌊x + 1 / 2⌋

/-- `n.toString(16)` for a natural number: lowercase hex digits. -/
def natToHexString (n : ℕ) : String := String.mk (Nat.toDigits 16 n)

/-- `.padStart(2, '0')`. -/
def padStart2 (s : String) : String :=
  if s.length = 0 then ("00") else if s.length = 1 then ("0" ++ s) else s

/-- `oklabToHex` from color.ts: the inverse chain with the two-stage clamp
(once on linear RGB, once on the final sRGB values) and 8-bit rounding. -/
noncomputable def oklabToHex (oklab : OKLab ℝ) : String :=
  let lms_mapped := multiplyMatrix3x3 (M_OKLAB_TO_LMS ℝ) (oklab.l, oklab.a, oklab.b)
  let lms := unmapLms lms_mapped
  let xyz := multiplyMatrix3x3 (M_LMS_TO_XYZ ℝ) lms
  let rgb := multiplyMatrix3x3 (M_XYZ_TO_RGB ℝ) xyz
  let r_linear := clamp rgb.1 0 1
  let g_linear := clamp rgb.2.1 0 1
  let b_linear := clamp rgb.2.2 0 1
  let r_srgb := clamp (linearToSrgb r_linear) 0 1
  let g_srgb := clamp (linearToSrgb g_linear) 0 1
  let b_srgb := clamp (linearToSrgb b_linear) 0 1
  let rHex := padStart2 (natToHexString (jsRound (r_srgb * 255)).toNat)
  let gHex := padStart2 (natToHexString (jsRound (g_srgb * 255)).toNat)
  let bHex := padStart2 (natToHexString (jsRound (b_srgb * 255)).toNat)
  "#" ++ rHex ++ gHex ++ bHex

/-- `Math.atan2` on real arguments (ℝ has no signed zeros; `atan2(+0, +0)`
is 0, matching the x = y = 0 branch here). -/
noncomputable def jsAtan2 (y x : ℝ) : ℝ :=
  if 0 < x then Real.arctan (y / x)
  else if x < 0 ∧ 0 ≤ y then Real.arctan (y / x) + Real.pi
  else if x < 0 then Real.arctan (y / x) - Real.pi
  else if 0 < y then Real.pi / 2
  else if y < 0 then -(Real.pi / 2)
  else 0

/-- `oklabToOklch` from color.ts: chroma by Pythagoras, hue by `atan2` in
degrees, normalized non-negative by adding 360 when negative. -/
noncomputable def oklabToOklch (oklab : OKLab ℝ) : Oklch ℝ :=
  let c := Real.sqrt (oklab.a * oklab.a + oklab.b * oklab.b)
  let h := jsAtan2 oklab.b oklab.a * (180 / Real.pi)
  { l := oklab.l, c := c, h := if h < 0 then h + 360 else h }

/-- C10: for every zero-chroma opponent color (a = 0, b = 0), `oklabToOklch`
(the spec's `toPolar`) returns chroma 0 and hue exactly 0 with the lightness
passed through unchanged — the implementation pins the zero-chroma hue
convention to 0 via `atan2(0, 0) = 0`, which the specification leaves
implementation-defined. -/
theorem oklabToOklch_zero_chroma (l : ℝ) :
    oklabToOklch ⟨l, 0, 0⟩ = ⟨l, 0, 0⟩ := by
  simp only [oklabToOklch, jsAtan2]
  rw [if_neg (show ¬((0:ℝ) < 0) from lt_irrefl 0),
    if_neg (show ¬((0:ℝ) < 0 ∧ (0:ℝ) ≤ 0) from fun hc => lt_irrefl (0 : ℝ) hc.1),
    if_neg (show ¬((0:ℝ) < 0) from lt_irrefl 0),
    if_neg (show ¬((0:ℝ) < 0) from lt_irrefl 0),
    if_neg (show ¬((0:ℝ) < 0) from lt_irrefl 0)]
  norm_num [Oklch.mk.injEq, Real.sqrt_zero]

/-- The parsed opponent color of a byte triple, as the specification chains
it: channels scaled to [0, 1], sRGB transfer to linear, fixed matrices to
XYZ then cone response, per-channel cube root, final matrix to opponent
coordinates. -/
noncomputable def specOklabOfBytes (r g b : ℕ) : OKLab ℝ :=
  let r_srgb : ℝ := (r : ℝ) / 255
  let g_srgb : ℝ := (g : ℝ) / 255
  let b_srgb : ℝ := (b : ℝ) / 255
  let r_linear := srgbToLinear r_srgb
  let g_linear := srgbToLinear g_srgb
  let b_linear := srgbToLinear b_srgb
  let xyz := multiplyMatrix3x3 (M_RGB_TO_XYZ ℝ) (r_linear, g_linear, b_linear)
  let lms := multiplyMatrix3x3 (M_XYZ_TO_LMS ℝ) xyz
  let lms_mapped := mapLms lms
  let lab := multiplyMatrix3x3 (M_LMS_TO_OKLAB ℝ) lms_mapped
  { l := lab.1, a := lab.2.1, b := lab.2.2 }

/-- A hex digit's value is below 16. -/
theorem hexDigitVal_lt_16 {c : Char} (h : isHexDigit c = true) : hexDigitVal c < 16 := by
  simp only [isHexDigit, Bool.or_eq_true, Bool.and_eq_true, decide_eq_true_eq] at h
  rw [hexDigitVal]
  split_ifs <;> omega

/-- C3 as amended: `hexToOKLab` never fails.  For every well-formed
"#rrggbb" input (six hex digits) it returns the parsed opponent color
obtained by the specification's conversion chain from the three digit-pair
byte values. -/
theorem hexToOKLab_wellFormed (c1 c2 c3 c4 c5 c6 : Char)
    (h1 : isHexDigit c1 = true) (h2 : isHexDigit c2 = true) (h3 : isHexDigit c3 = true)
    (h4 : isHexDigit c4 = true) (h5 : isHexDigit c5 = true) (h6 : isHexDigit c6 = true) :
    hexToOKLab (String.mk ['#', c1, c2, c3, c4, c5, c6]) =
      specOklabOfBytes (16 * hexDigitVal c1 + hexDigitVal c2)
        (16 * hexDigitVal c3 + hexDigitVal c4) (16 * hexDigitVal c5 + hexDigitVal c6) := by
  have v1 := hexDigitVal_lt_16 h1
  have v2 := hexDigitVal_lt_16 h2
  have v3 := hexDigitVal_lt_16 h3
  have v4 := hexDigitVal_lt_16 h4
  have v5 := hexDigitVal_lt_16 h5
  have v6 := hexDigitVal_lt_16 h6
  have hdata : (String.mk ['#', c1, c2, c3, c4, c5, c6]).data.drop 1 =
      [c1, c2, c3, c4, c5, c6] := rfl
  have htw : List.takeWhile isHexDigit [c1, c2, c3, c4, c5, c6] =
      [c1, c2, c3, c4, c5, c6] := by
    simp [List.takeWhile_cons, h1, h2, h3, h4, h5, h6]
  have hparse : parseIntHex ((String.mk ['#', c1, c2, c3, c4, c5, c6]).data.drop 1) =
      some (((((hexDigitVal c1 * 16 + hexDigitVal c2) * 16 + hexDigitVal c3) * 16 +
        hexDigitVal c4) * 16 + hexDigitVal c5) * 16 + hexDigitVal c6) := by
    rw [hdata, parseIntHex]
    simp only [htw, List.isEmpty_cons, List.foldl_cons, List.foldl_nil]
    norm_num
  have hNlt : ((((hexDigitVal c1 * 16 + hexDigitVal c2) * 16 + hexDigitVal c3) * 16 +
      hexDigitVal c4) * 16 + hexDigitVal c5) * 16 + hexDigitVal c6 < 2 ^ 31 := by omega
  have htoi : toInt32 (parseIntHex ((String.mk ['#', c1, c2, c3, c4, c5, c6]).data.drop 1)) =
      (((((((hexDigitVal c1 * 16 + hexDigitVal c2) * 16 + hexDigitVal c3) * 16 +
        hexDigitVal c4) * 16 + hexDigitVal c5) * 16 + hexDigitVal c6 : ℕ) : ℤ)) := by
    rw [hparse]
    simp only [toInt32]
    rw [Nat.mod_eq_of_lt (by omega), if_pos (by omega)]
  have hr : jsAnd255 (jsShr (((((((hexDigitVal c1 * 16 + hexDigitVal c2) * 16 +
      hexDigitVal c3) * 16 + hexDigitVal c4) * 16 + hexDigitVal c5) * 16 +
      hexDigitVal c6 : ℕ) : ℤ)) 16) =
      ((16 * hexDigitVal c1 + hexDigitVal c2 : ℕ) : ℤ) := by
    rw [jsAnd255, jsShr, Int.fdiv_eq_ediv _ (by norm_num)]
    omega
  have hg : jsAnd255 (jsShr (((((((hexDigitVal c1 * 16 + hexDigitVal c2) * 16 +
      hexDigitVal c3) * 16 + hexDigitVal c4) * 16 + hexDigitVal c5) * 16 +
      hexDigitVal c6 : ℕ) : ℤ)) 8) =
      ((16 * hexDigitVal c3 + hexDigitVal c4 : ℕ) : ℤ) := by
    rw [jsAnd255, jsShr, Int.fdiv_eq_ediv _ (by norm_num)]
    omega
  have hb : jsAnd255 (((((((hexDigitVal c1 * 16 + hexDigitVal c2) * 16 +
      hexDigitVal c3) * 16 + hexDigitVal c4) * 16 + hexDigitVal c5) * 16 +
      hexDigitVal c6 : ℕ) : ℤ)) =
      ((16 * hexDigitVal c5 + hexDigitVal c6 : ℕ) : ℤ) := by
    rw [jsAnd255]
    omega
  simp only [hexToOKLab, specOklabOfBytes, htoi, hr, hg, hb, Int.cast_natCast]

/-- Evaluating the parse-and-extract front end of `hexToOKLab` at 0 collapses
the whole chain to the color of black. -/
theorem hexToOKLab_of_parse_zero (s : String)
    (hp : toInt32 (parseIntHex (s.data.drop 1)) = 0) : hexToOKLab s = ⟨0, 0, 0⟩ := by
  have hsh : ∀ k : ℕ, jsAnd255 (jsShr 0 k) = 0 := by
    intro k
    rw [jsShr, jsAnd255]
    rw [show Int.fdiv 0 (2 ^ k) = 0 from Int.zero_fdiv _]
    rfl
  have hb0 : jsAnd255 0 = 0 := rfl
  have hzero : srgbToLinear (((0 : ℤ) : ℝ) / 255) = 0 := by
    rw [show (((0 : ℤ) : ℝ) / 255) = 0 by norm_num, srgbToLinear,
      if_pos (by norm_num [SRGB_THRESHOLD])]
    norm_num [SRGB_LINEAR_FACTOR]
  have hmat : ∀ M : Mat3 ℝ, multiplyMatrix3x3 M (0, 0, 0) = (0, 0, 0) := by
    intro M
    simp [multiplyMatrix3x3]
  have hcbrt : cbrt 0 = 0 := by
    rw [cbrt, if_neg (lt_irrefl 0), Real.zero_rpow (by norm_num)]
  simp only [hexToOKLab, hp, hsh, hb0, hzero, hmat, mapLms, hcbrt]

/-- C3 counterexample: a malformed input (six non-hex characters) does not
fail; `parseInt` yields NaN, the bit operations coerce it to 0, and
`hexToOKLab` silently returns the default color black — the same output as
for the valid input "#000000". -/
theorem hexToOKLab_malformed_silent :
    hexToOKLab ("#gggggg") = OKLab.mk 0 0 0 ∧ hexToOKLab ("#000000") = OKLab.mk 0 0 0 :=
  ⟨hexToOKLab_of_parse_zero _ rfl, hexToOKLab_of_parse_zero _ rfl⟩

/-- C3 witness: the amended theorem applied to the concrete input "#ff8800". -/
theorem hexToOKLab_wellFormed_witness :
    isHexDigit 'f' = true ∧ isHexDigit '8' = true ∧ isHexDigit '0' = true ∧
    hexToOKLab ("#ff8800") =
      specOklabOfBytes (16 * hexDigitVal 'f' + hexDigitVal 'f')
        (16 * hexDigitVal '8' + hexDigitVal '8') (16 * hexDigitVal '0' + hexDigitVal '0') :=
  ⟨rfl, rfl, rfl, hexToOKLab_wellFormed 'f' 'f' '8' '8' '0' '0' rfl rfl rfl rfl rfl rfl⟩

/-- Black's clamped linear RGB is (0, 0, 0). -/
theorem oklabToLinearRgb_black : oklabToLinearRgb (⟨0, 0, 0⟩ : OKLab ℚ) = (0, 0, 0) := by
  norm_num [oklabToLinearRgb, M_OKLAB_TO_LMS, M_LMS_TO_XYZ, M_XYZ_TO_RGB,
    multiplyMatrix3x3, unmapLms, clamp]

/-- The black-on-black contrast ratio is 1. -/
theorem contrast_black_black : calculateContrastRatio (⟨0, 0, 0⟩ : OKLab ℚ) ⟨0, 0, 0⟩ = 1 := by
  simp only [calculateContrastRatio, oklabToLinearRgb_black, calculateRelativeLuminance]
  norm_num

/-- C8 counterexample: with two stops sharing a position (colors black, so
the adjacent pair fails the audit), reversing the input stop array swaps the
reported id pair — the stable sort preserves the reversed insertion order of
the tied stops. -/
theorem contrastAudit_tied_positions_reverse_differs :
    contrastAudit
      { id := "g", type := .linear, angle := 0,
        stops := ([⟨"a", 1/2, ⟨0, 0, 0⟩⟩, ⟨"b", 1/2, ⟨0, 0, 0⟩⟩] :
          List (GradientStop ℚ)).reverse } 4.5 ≠
    contrastAudit
      { id := "g", type := .linear, angle := 0,
        stops := ([⟨"a", 1/2, ⟨0, 0, 0⟩⟩, ⟨"b", 1/2, ⟨0, 0, 0⟩⟩] :
          List (GradientStop ℚ)) } 4.5 := by
  have hsort : ∀ x y : GradientStop ℚ, x.position = 1/2 → y.position = 1/2 →
      sortStops [x, y] = [x, y] := by
    intro x y hx hy
    simp only [sortStops, List.insertionSort, List.orderedInsert]
    rw [if_pos (show x.position ≤ y.position from by rw [hx, hy])]
  have hloop : ∀ x y : GradientStop ℚ, x.color = ⟨0, 0, 0⟩ → y.color = ⟨0, 0, 0⟩ →
      auditLoop (4.5 : ℚ) [x, y] = [(x.id, y.id)] := by
    intro x y hx hy
    simp only [auditLoop]
    rw [hx, hy, if_pos (by rw [contrast_black_black]; norm_num)]
    rfl
  have heval : ∀ x y : GradientStop ℚ, x.position = 1/2 → y.position = 1/2 →
      x.color = ⟨0, 0, 0⟩ → y.color = ⟨0, 0, 0⟩ →
      contrastAudit { id := "g", type := .linear, angle := (0 : ℚ), stops := [x, y] } 4.5 =
        [(x.id, y.id)] := by
    intro x y hpx hpy hcx hcy
    rw [contrastAudit, if_neg (by norm_num), hsort x y hpx hpy, hloop x y hcx hcy]
  rw [show ([⟨"a", 1/2, ⟨0, 0, 0⟩⟩, ⟨"b", 1/2, ⟨0, 0, 0⟩⟩] :
      List (GradientStop ℚ)).reverse = [⟨"b", 1/2, ⟨0, 0, 0⟩⟩, ⟨"a", 1/2, ⟨0, 0, 0⟩⟩] from rfl]
  rw [heval ⟨"b", 1/2, ⟨0, 0, 0⟩⟩ ⟨"a", 1/2, ⟨0, 0, 0⟩⟩ rfl rfl rfl rfl,
    heval ⟨"a", 1/2, ⟨0, 0, 0⟩⟩ ⟨"b", 1/2, ⟨0, 0, 0⟩⟩ rfl rfl rfl rfl]
  simp

/-- Lower rational bound for a (5/12)-power via integer powers. -/
theorem rpow_512_le {q w : ℝ} (hq : 0 ≤ q) (hw : 0 ≤ w) (h : w ^ (12 : ℕ) ≤ q ^ (5 : ℕ)) :
    w ≤ q ^ ((5 : ℝ) / 12) := by
  have h1 : q ^ ((5 : ℝ) / 12) = (q ^ (5 : ℕ)) ^ ((1 : ℝ) / 12) := by
    rw [← Real.rpow_natCast q 5, ← Real.rpow_mul hq]
    norm_num
  have h2 : w = (w ^ (12 : ℕ)) ^ ((1 : ℝ) / 12) := by
    rw [← Real.rpow_natCast w 12, ← Real.rpow_mul hw]
    norm_num
  rw [h1, h2]
  exact Real.rpow_le_rpow (pow_nonneg hw _) h (by norm_num)

/-- Upper rational bound for a (5/12)-power via integer powers. -/
theorem rpow_512_lt {q w : ℝ} (hq : 0 ≤ q) (hw : 0 ≤ w) (h : q ^ (5 : ℕ) < w ^ (12 : ℕ)) :
    q ^ ((5 : ℝ) / 12) < w := by
  have h1 : q ^ ((5 : ℝ) / 12) = (q ^ (5 : ℕ)) ^ ((1 : ℝ) / 12) := by
    rw [← Real.rpow_natCast q 5, ← Real.rpow_mul hq]
    norm_num
  have h2 : w = (w ^ (12 : ℕ)) ^ ((1 : ℝ) / 12) := by
    rw [← Real.rpow_natCast w 12, ← Real.rpow_mul hw]
    norm_num
  rw [h1, h2]
  exact Real.rpow_lt_rpow (pow_nonneg hq _) h (by norm_num)

/-- Black encodes to "#000000". -/
theorem oklabToHex_black : oklabToHex ⟨0, 0, 0⟩ = "#000000" := by
  have hrgb : multiplyMatrix3x3 (M_XYZ_TO_RGB ℝ)
      (multiplyMatrix3x3 (M_LMS_TO_XYZ ℝ)
        (unmapLms (multiplyMatrix3x3 (M_OKLAB_TO_LMS ℝ) ((0 : ℝ), (0 : ℝ), (0 : ℝ))))) =
      (0, 0, 0) := by
    norm_num [M_OKLAB_TO_LMS, M_LMS_TO_XYZ, M_XYZ_TO_RGB, multiplyMatrix3x3, unmapLms,
      Prod.ext_iff]
  have hcl : clamp (0 : ℝ) 0 1 = 0 := clamp_of_le_of_le le_rfl (by norm_num)
  have hs0 : linearToSrgb 0 = 0 := by
    rw [linearToSrgb, if_pos (by norm_num)]
    norm_num [SRGB_LINEAR_FACTOR]
  have hround : jsRound ((0 : ℝ) * 255) = 0 := by
    rw [jsRound, show ((0 : ℝ) * 255 + 1 / 2) = 1 / 2 from by norm_num, Int.floor_eq_iff]
    norm_num
  simp only [oklabToHex, hrgb, hcl, hs0, hround]
  rfl

/-- The out-of-gamut color ⟨l=1, a=0, b=0⟩ encodes to "#fff9f4": its raw
linear RGB is ≈ (1.2045, 0.9483, 0.9088), the red channel clamps to 1, and
the green and blue channels round to bytes 0xf9 and 0xf4. -/
theorem oklabToHex_unit_l : oklabToHex ⟨1, 0, 0⟩ = "#fff9f4" := by
  have hrgb : multiplyMatrix3x3 (M_XYZ_TO_RGB ℝ)
      (multiplyMatrix3x3 (M_LMS_TO_XYZ ℝ)
        (unmapLms (multiplyMatrix3x3 (M_OKLAB_TO_LMS ℝ) ((1 : ℝ), (0 : ℝ), (0 : ℝ))))) =
      (60226523636427 / 50000000000000, 23707886403311 / 25000000000000,
        45442343384773 / 50000000000000) := by
    norm_num [M_OKLAB_TO_LMS, M_LMS_TO_XYZ, M_XYZ_TO_RGB, multiplyMatrix3x3, unmapLms,
      Prod.ext_iff]
  -- red channel: raw 1.2045… clamps to 1, then linearToSrgb 1 = 1, byte 255
  have hclr : clamp (60226523636427 / 50000000000000 : ℝ) 0 1 = 1 :=
    clamp_of_hi_le (by norm_num)
  have hs1 : linearToSrgb 1 = 1 := by
    rw [linearToSrgb, if_neg (by norm_num), show ((1 : ℝ) / SRGB_GAMMA) = (5 : ℝ) / 12 from by
      norm_num [SRGB_GAMMA], Real.one_rpow]
    norm_num [SRGB_ALPHA]
  have hcl1 : clamp (1 : ℝ) 0 1 = 1 := clamp_of_le_of_le (by norm_num) le_rfl
  have hround255 : jsRound ((1 : ℝ) * 255) = 255 := by
    rw [jsRound, Int.floor_eq_iff]
    norm_num
  -- green channel: srgb value strictly between rational bounds, byte 249
  have hglo : (97813097 / 100000000 : ℝ) ≤ (23707886403311 / 25000000000000 : ℝ) ^ ((5 : ℝ) / 12) :=
    rpow_512_le (by norm_num) (by norm_num) (by norm_num)
  have hghi : (23707886403311 / 25000000000000 : ℝ) ^ ((5 : ℝ) / 12) < 48906549 / 50000000 :=
    rpow_512_lt (by norm_num) (by norm_num) (by norm_num)
  have hclg : clamp (23707886403311 / 25000000000000 : ℝ) 0 1 = 23707886403311 / 25000000000000 :=
    clamp_of_le_of_le (by norm_num) (by norm_num)
  have hsg : linearToSrgb (23707886403311 / 25000000000000 : ℝ) =
      211 / 200 * (23707886403311 / 25000000000000 : ℝ) ^ ((5 : ℝ) / 12) - 11 / 200 := by
    rw [linearToSrgb, if_neg (by norm_num), show ((1 : ℝ) / SRGB_GAMMA) = (5 : ℝ) / 12 from by
      norm_num [SRGB_GAMMA]]
    norm_num [SRGB_ALPHA]
  have hclsg : clamp (211 / 200 * (23707886403311 / 25000000000000 : ℝ) ^ ((5 : ℝ) / 12) -
      11 / 200) 0 1 =
      211 / 200 * (23707886403311 / 25000000000000 : ℝ) ^ ((5 : ℝ) / 12) - 11 / 200 :=
    clamp_of_le_of_le (by nlinarith [hglo]) (by nlinarith [hghi])
  have hroundg : jsRound ((211 / 200 * (23707886403311 / 25000000000000 : ℝ) ^ ((5 : ℝ) / 12) -
      11 / 200) * 255) = 249 := by
    rw [jsRound, Int.floor_eq_iff]
    constructor
    · push_cast
      nlinarith [hglo]
    · push_cast
      nlinarith [hghi]
  -- blue channel: srgb value strictly between rational bounds, byte 244
  have hblo : (24023953 / 25000000 : ℝ) ≤ (45442343384773 / 50000000000000 : ℝ) ^ ((5 : ℝ) / 12) :=
    rpow_512_le (by norm_num) (by norm_num) (by norm_num)
  have hbhi : (45442343384773 / 50000000000000 : ℝ) ^ ((5 : ℝ) / 12) < 96095813 / 100000000 :=
    rpow_512_lt (by norm_num) (by norm_num) (by norm_num)
  have hclb : clamp (45442343384773 / 50000000000000 : ℝ) 0 1 = 45442343384773 / 50000000000000 :=
    clamp_of_le_of_le (by norm_num) (by norm_num)
  have hsb : linearToSrgb (45442343384773 / 50000000000000 : ℝ) =
      211 / 200 * (45442343384773 / 50000000000000 : ℝ) ^ ((5 : ℝ) / 12) - 11 / 200 := by
    rw [linearToSrgb, if_neg (by norm_num), show ((1 : ℝ) / SRGB_GAMMA) = (5 : ℝ) / 12 from by
      norm_num [SRGB_GAMMA]]
    norm_num [SRGB_ALPHA]
  have hclsb : clamp (211 / 200 * (45442343384773 / 50000000000000 : ℝ) ^ ((5 : ℝ) / 12) -
      11 / 200) 0 1 =
      211 / 200 * (45442343384773 / 50000000000000 : ℝ) ^ ((5 : ℝ) / 12) - 11 / 200 :=
    clamp_of_le_of_le (by nlinarith [hblo]) (by nlinarith [hbhi])
  have hroundb : jsRound ((211 / 200 * (45442343384773 / 50000000000000 : ℝ) ^ ((5 : ℝ) / 12) -
      11 / 200) * 255) = 244 := by
    rw [jsRound, Int.floor_eq_iff]
    constructor
    · push_cast
      nlinarith [hblo]
    · push_cast
      nlinarith [hbhi]
  simp only [oklabToHex, hrgb, hclr, hs1, hcl1, hround255, hclg, hsg, hclsg, hroundg,
    hclb, hsb, hclsb, hroundb]
  rfl

/-- Rendering of a nonnegative hundredth count as a two-decimal string, the
formatting part of `toFixed(2)`. -/
def fixedFmt2 (m : ℕ) : String :=
  Nat.repr (m / 100) ++ "." ++
    (if m % 100 < 10 then ("0" ++ Nat.repr (m % 100)) else Nat.repr (m % 100))

/-- ECMAScript `toFixed(2)`: the integer closest to x·100, ties toward the
larger integer — i.e. ⌊x·100 + 1/2⌋ — rendered with two decimals.  (The
"-0.00" output for tiny negative doubles and the precision loss above 10^21
are not modelled; no claim exercises them.) -/
noncomputable def jsToFixed2 (x : ℝ) : String :=
  let n : ℤ := ⌊x * 100 + 1 / 2⌋
  if n < 0 then ("-" ++ fixedFmt2 (-n).toNat) else fixedFmt2 n.toNat

open Classical in
/-- ECMAScript ToString on a JS number: an integral double of magnitude below
10^21 prints as a plain integer.  Non-integral and huge values use the
shortest-round-trip decimal algorithm, which is outside the real-valued
embedding; they are left as the empty string here and no claim exercises
them. -/
noncomputable def jsNumToString (x : ℝ) : String :=
  if h : ∃ n : ℤ, (n : ℝ) = x ∧ |(n : ℝ)| < 10 ^ 21 then toString h.choose else ("")

/-- `jsNumToString` on an integral value prints the integer. -/
theorem jsNumToString_int (n : ℤ) (hn : |(n : ℝ)| < 10 ^ 21) :
    jsNumToString (n : ℝ) = toString n := by
  have hex : ∃ m : ℤ, ((m : ℝ) = ((n : ℤ) : ℝ) ∧ |(m : ℝ)| < 10 ^ 21) := ⟨n, rfl, hn⟩
  rw [jsNumToString, dif_pos hex]
  have hspec := hex.choose_spec
  have hagree : hex.choose = n := by exact_mod_cast hspec.1
  rw [hagree]

/-- `toCss` from gradient.ts: non-linear gradients fall back to
"background: gray;"; linear gradients sort a copy of the stops, render each
as "<hex> <percent>%" with the position clamped into [0, 100] percent and
printed with two decimals, join with ", ", and wrap with the angle emitted
verbatim. -/
noncomputable def toCss (g : Gradient ℝ) : String :=
  if g.type ≠ GradientType.linear then ("background: gray;")
  else
    let sortedStops := sortStops g.stops
    let stopsString := String.intercalate (", ") (sortedStops.map fun stop =>
      oklabToHex stop.color ++ " " ++ jsToFixed2 (clamp (stop.position * 100) 0 100) ++ "%")
    "linear-gradient(" ++ jsNumToString g.angle ++ "deg, " ++ stopsString ++ ")"

/-- `toCssLinear` on a linear gradient as the specification words it: sort
stops ascending by position (stable), map each to "<hex> <percent>%" where
percent = clamp(position·100, 0, 100) with exactly two decimal places, join
with ", ", wrap as "linear-gradient(<angle>deg, <stops>)" with the angle
verbatim. -/
noncomputable def specToCssLinear (g : Gradient ℝ) : String :=
  "linear-gradient(" ++ jsNumToString g.angle ++ "deg, " ++
    String.intercalate (", ") ((sortStops g.stops).map fun stop =>
      oklabToHex stop.color ++ " " ++ jsToFixed2 (clamp (stop.position * 100) 0 100) ++ "%") ++
    ")"

/-- toFixed(2) at 0. -/
theorem jsToFixed2_zero : jsToFixed2 (0 : ℝ) = "0.00" := by
  simp only [jsToFixed2]
  rw [show ((0 : ℝ) * 100 + 1 / 2) = 1 / 2 from by norm_num,
    show ⌊(1 / 2 : ℝ)⌋ = 0 from by rw [Int.floor_eq_iff] <;> norm_num,
    if_neg (by norm_num)]
  rfl

/-- toFixed(2) at 100. -/
theorem jsToFixed2_hundred : jsToFixed2 (100 : ℝ) = "100.00" := by
  simp only [jsToFixed2]
  rw [show ((100 : ℝ) * 100 + 1 / 2) = 20001 / 2 from by norm_num,
    show ⌊(20001 / 2 : ℝ)⌋ = 10000 from by rw [Int.floor_eq_iff] <;> norm_num,
    if_neg (by norm_num)]
  rfl

/-- Evaluation of `toCss` on the reverse-insertion-order black/white test
gradient (positions [1, 0], colors ⟨1,0,0⟩ and ⟨0,0,0⟩, angle 0). -/
theorem toCss_g3_eval :
    toCss
      { id := "g3", type := .linear, angle := 0,
        stops := [⟨"s2", 1, ⟨1, 0, 0⟩⟩, ⟨"s1", 0, ⟨0, 0, 0⟩⟩] } =
      "linear-gradient(0deg, #000000 0.00%, #fff9f4 100.00%)" := by
  rw [toCss, if_neg (fun hne => hne rfl)]
  have hsort : sortStops [(⟨"s2", 1, ⟨1, 0, 0⟩⟩ : GradientStop ℝ), ⟨"s1", 0, ⟨0, 0, 0⟩⟩] =
      [⟨"s1", 0, ⟨0, 0, 0⟩⟩, ⟨"s2", 1, ⟨1, 0, 0⟩⟩] := by
    simp only [sortStops, List.insertionSort, List.orderedInsert]
    rw [if_neg (show ¬((⟨"s2", 1, ⟨1, 0, 0⟩⟩ : GradientStop ℝ).position ≤
      (⟨"s1", 0, ⟨0, 0, 0⟩⟩ : GradientStop ℝ).position) from by norm_num)]
  simp only [hsort, List.map_cons, List.map_nil]
  rw [show ((0 : ℝ) * 100) = 0 from by norm_num, show ((1 : ℝ) * 100) = 100 from by norm_num,
    clamp_of_le_of_le (le_refl (0 : ℝ)) (by norm_num),
    clamp_of_le_of_le (show (0 : ℝ) ≤ 100 from by norm_num) (le_refl (100 : ℝ)),
    jsToFixed2_zero, jsToFixed2_hundred, oklabToHex_black, oklabToHex_unit_l,
    show (0 : ℝ) = ((0 : ℤ) : ℝ) from by norm_num, jsNumToString_int 0 (by norm_num)]
  rfl

/-- Evaluation of `toCss` on the out-of-range-positions test gradient
(positions -0.5 and 1.5, angle 180). -/
theorem toCss_g4_eval :
    toCss
      { id := "g4", type := .linear, angle := 180,
        stops := [⟨"s1", -0.5, ⟨0, 0, 0⟩⟩, ⟨"s2", 1.5, ⟨1, 0, 0⟩⟩] } =
      "linear-gradient(180deg, #000000 0.00%, #fff9f4 100.00%)" := by
  rw [toCss, if_neg (fun hne => hne rfl)]
  have hsort : sortStops [(⟨"s1", -0.5, ⟨0, 0, 0⟩⟩ : GradientStop ℝ), ⟨"s2", 1.5, ⟨1, 0, 0⟩⟩] =
      [⟨"s1", -0.5, ⟨0, 0, 0⟩⟩, ⟨"s2", 1.5, ⟨1, 0, 0⟩⟩] := by
    simp only [sortStops, List.insertionSort, List.orderedInsert]
    rw [if_pos (show (⟨"s1", -0.5, ⟨0, 0, 0⟩⟩ : GradientStop ℝ).position ≤
      (⟨"s2", 1.5, ⟨1, 0, 0⟩⟩ : GradientStop ℝ).position from by norm_num)]
  simp only [hsort, List.map_cons, List.map_nil]
  rw [show ((-0.5 : ℝ) * 100) = -50 from by norm_num,
    show ((1.5 : ℝ) * 100) = 150 from by norm_num,
    clamp_of_le_lo (show (-50 : ℝ) ≤ 0 from by norm_num) (by norm_num),
    clamp_of_hi_le (show (100 : ℝ) ≤ 150 from by norm_num),
    jsToFixed2_zero, jsToFixed2_hundred, oklabToHex_black, oklabToHex_unit_l,
    show (180 : ℝ) = ((180 : ℤ) : ℝ) from by norm_num, jsNumToString_int 180 (by norm_num)]
  rfl

/-- C5 counterexample: the claimed output for the black/white reverse-order
gradient names "#ffffff" for the stop color ⟨1,0,0⟩, but `oklabToHex` (the
function `toCss` actually calls) encodes ⟨1,0,0⟩ as "#fff9f4"; the repo's
own test obtains "#ffffff" only by mocking `oklabToHex`. -/
theorem toCss_unit_l_not_ffffff :
    toCss
      { id := "g3", type := .linear, angle := 0,
        stops := [⟨"s2", 1, ⟨1, 0, 0⟩⟩, ⟨"s1", 0, ⟨0, 0, 0⟩⟩] } ≠
      "linear-gradient(0deg, #000000 0.00%, #ffffff 100.00%)" := by
  rw [toCss_g3_eval]
  decide

/-- C5 as amended: `toCss` on a linear gradient sorts the stops ascending by
position (stable), renders each stop as "<hex> <p>%" where
p = clamp(position·100, 0, 100) is printed with exactly two decimal places,
joins with ", ", and wraps as "linear-gradient(<angle>deg, <stops>)" with the
angle emitted verbatim.  Stops at positions [1, 0] in reverse insertion
order, with colors ⟨1,0,0⟩ / ⟨0,0,0⟩ and angle 0, produce exactly
"linear-gradient(0deg, #000000 0.00%, #fff9f4 100.00%)" (the color
⟨1,0,0⟩ encodes to #fff9f4, not #ffffff), and positions -0.5 and 1.5 render
as 0.00% and 100.00%. -/
theorem toCss_spec :
    (∀ g : Gradient ℝ, g.type = GradientType.linear → toCss g = specToCssLinear g) ∧
    toCss
      { id := "g3", type := .linear, angle := 0,
        stops := [⟨"s2", 1, ⟨1, 0, 0⟩⟩, ⟨"s1", 0, ⟨0, 0, 0⟩⟩] } =
      "linear-gradient(0deg, #000000 0.00%, #fff9f4 100.00%)" ∧
    toCss
      { id := "g4", type := .linear, angle := 180,
        stops := [⟨"s1", -0.5, ⟨0, 0, 0⟩⟩, ⟨"s2", 1.5, ⟨1, 0, 0⟩⟩] } =
      "linear-gradient(180deg, #000000 0.00%, #fff9f4 100.00%)" := by
  refine ⟨?_, toCss_g3_eval, toCss_g4_eval⟩
  intro g hg
  rw [toCss, if_neg (fun hne => hne hg), specToCssLinear]

/-- C5 witness: the universal conjunct applied to a concrete linear
gradient. -/
theorem toCss_spec_witness :
    toCss
      { id := "g3", type := .linear, angle := 0,
        stops := [⟨"s2", 1, ⟨1, 0, 0⟩⟩, ⟨"s1", 0, ⟨0, 0, 0⟩⟩] } =
      specToCssLinear
        { id := "g3", type := .linear, angle := 0,
          stops := [⟨"s2", 1, ⟨1, 0, 0⟩⟩, ⟨"s1", 0, ⟨0, 0, 0⟩⟩] } :=
  toCss_spec.1 _ rfl

/-- `MAX_STOPS` from gpu.ts (must match the shader constant). -/
def MAX_STOPS : ℕ := 8

/-- A 4-byte scalar written into the uniform buffer.  The IEEE-754 binary32
encoding of the f32 payload is abstracted: the claims speak about which
scalar value occupies which 4-byte slot and in which byte order. -/
inductive UniformValue where
  | f32 (value : ℝ)
  | u32 (value : ℕ)

/-- One DataView write: a 4-byte scalar at a byte offset with an endianness
flag (`true` = little-endian, the third argument of `setFloat32` /
`setUint32` in gpu.ts). -/
structure WriteEvent where
  offset : ℕ
  value : UniformValue
  littleEndian : Bool

/-- The stop-record loop of `renderGradientGL` (gpu.ts): for each
i < MAX_STOPS write (position, r, g, b) as four little-endian f32s at the
running offset, 16 bytes per record; slots with no stop write four zeros.
Returns the events and the final offset, starting from offset 16. -/
noncomputable def packStopsLoop (stops : List (GradientStop ℝ)) : List WriteEvent × ℕ :=
  (List.range MAX_STOPS).foldl
    (fun acc i =>
      let stop := stops.get? i
      let pos : ℝ := match stop with | some s => s.position | none => 0
      let rgb : ℝ × ℝ × ℝ :=
        match stop with | some s => oklabToLinearRgb s.color | none => (0, 0, 0)
      (acc.1 ++ [⟨acc.2, .f32 pos, true⟩, ⟨acc.2 + 4, .f32 rgb.1, true⟩,
        ⟨acc.2 + 8, .f32 rgb.2.1, true⟩, ⟨acc.2 + 12, .f32 rgb.2.2, true⟩],
       acc.2 + 16))
    ([], 16)

/-- The uniform-buffer packing stage of `renderGradientGL` (gpu.ts): sort the
stops, truncate to `MAX_STOPS`, convert the angle to radians, then write the
16-byte header (angle f32, num_stops u32, two f32 zero padding words) and
the stop records, all little-endian.  Returns the allocated buffer size and
the write events in issue order. -/
noncomputable def renderGradientGLUniform (g : Gradient ℝ) : ℕ × List WriteEvent :=
  let sortedStops := (sortStops g.stops).take MAX_STOPS
  let numStops := sortedStops.length
  let angleRad := g.angle * (Real.pi / 180)
  let stopStructSizeBytes := 4 * 4
  let uniformBufferSize := 4 * 4 + MAX_STOPS * stopStructSizeBytes
  let header : List WriteEvent :=
    [⟨0, .f32 angleRad, true⟩, ⟨4, .u32 numStops, true⟩,
     ⟨8, .f32 0, true⟩, ⟨12, .f32 0, true⟩]
  (uniformBufferSize, header ++ (packStopsLoop sortedStops).1)

/-- A stop record as the claim describes it: at its slot's base offset,
(position f32, r f32, g f32, b f32) for a retained stop — the color already
converted to clamped linear RGB — or four f32 zeros for an unused trailing
slot, all little-endian. -/
noncomputable def specStopRecord (o : ℕ) : Option (GradientStop ℝ) → List WriteEvent
  | some s =>
      [⟨o, .f32 s.position, true⟩, ⟨o + 4, .f32 (oklabToLinearRgb s.color).1, true⟩,
       ⟨o + 8, .f32 (oklabToLinearRgb s.color).2.1, true⟩,
       ⟨o + 12, .f32 (oklabToLinearRgb s.color).2.2, true⟩]
  | none =>
      [⟨o, .f32 0, true⟩, ⟨o + 4, .f32 0, true⟩, ⟨o + 8, .f32 0, true⟩,
       ⟨o + 12, .f32 0, true⟩]

/-- The packed buffer as the claim describes it: a 16-byte little-endian
header — angle in radians (f32) at 0, num_stops = min(stop count, MAX_STOPS)
(u32) at 4, 8 zero padding bytes at 8 — followed by MAX_STOPS 16-byte records
at offsets 16 + 16·i holding the stops sorted ascending by position and
truncated to the MAX_STOPS lowest-position stops. -/
noncomputable def specUniformWrites (g : Gradient ℝ) : List WriteEvent :=
  [⟨0, .f32 (g.angle * (Real.pi / 180)), true⟩,
   ⟨4, .u32 (min g.stops.length MAX_STOPS), true⟩,
   ⟨8, .f32 0, true⟩, ⟨12, .f32 0, true⟩] ++
  (List.range MAX_STOPS).flatMap fun i =>
    specStopRecord (16 + 16 * i) (((sortStops g.stops).take MAX_STOPS).get? i)

/-- Each iteration of the packing loop writes exactly the claimed record. -/
theorem packStopsLoop_record_eq (o : ℕ) (st : Option (GradientStop ℝ)) :
    ([⟨o, .f32 (match st with | some s => s.position | none => 0), true⟩,
      ⟨o + 4, .f32 (match st with
        | some s => oklabToLinearRgb s.color | none => ((0 : ℝ), (0 : ℝ), (0 : ℝ))).1, true⟩,
      ⟨o + 8, .f32 (match st with
        | some s => oklabToLinearRgb s.color | none => ((0 : ℝ), (0 : ℝ), (0 : ℝ))).2.1, true⟩,
      ⟨o + 12, .f32 (match st with
        | some s => oklabToLinearRgb s.color | none => ((0 : ℝ), (0 : ℝ), (0 : ℝ))).2.2, true⟩] :
      List WriteEvent) = specStopRecord o st := by
  cases st <;> rfl

/-- The packing loop, from any starting accumulator and offset, appends the
claimed records at offsets advancing by 16 per slot. -/
theorem packStopsLoop_fold_eq (stops : List (GradientStop ℝ)) :
    ∀ (n : ℕ) (acc : List WriteEvent) (off : ℕ),
      (List.range n).foldl
        (fun acc i =>
          let stop := stops.get? i
          let pos : ℝ := match stop with | some s => s.position | none => 0
          let rgb : ℝ × ℝ × ℝ :=
            match stop with | some s => oklabToLinearRgb s.color | none => (0, 0, 0)
          (acc.1 ++ [⟨acc.2, .f32 pos, true⟩, ⟨acc.2 + 4, .f32 rgb.1, true⟩,
            ⟨acc.2 + 8, .f32 rgb.2.1, true⟩, ⟨acc.2 + 12, .f32 rgb.2.2, true⟩],
           acc.2 + 16))
        (acc, off) =
      (acc ++ (List.range n).flatMap fun i => specStopRecord (off + 16 * i) (stops.get? i),
       off + 16 * n) := by
  intro n
  induction n with
  | zero => intro acc off; simp
  | succ n ih =>
    intro acc off
    rw [List.range_succ, List.foldl_append, List.flatMap_append, ih]
    simp only [List.foldl_cons, List.foldl_nil, List.flatMap_cons, List.flatMap_nil,
      List.append_nil, List.append_assoc, Prod.mk.injEq]
    rw [packStopsLoop_record_eq (off + 16 * n) (stops.get? n)]
    exact ⟨rfl, by omega⟩

/-- C4: for every gradient, `renderGradientGL` packs a uniform buffer of
exactly 16 + MAX_STOPS·16 bytes (MAX_STOPS = 8), all writes little-endian: a
16-byte header of the angle in radians (f32), num_stops = min(stop count, 8)
(u32) and 8 zero padding bytes, followed by 8 records of (position f32,
r f32, g f32, b f32) at offsets 16 + 16·i holding the stops sorted ascending
by position and truncated to the 8 lowest-position stops with colors
converted to clamped linear RGB, trailing slots zero-filled. -/
theorem renderGradientGLUniform_spec (g : Gradient ℝ) :
    (renderGradientGLUniform g).1 = 16 + MAX_STOPS * 16 ∧
    (renderGradientGLUniform g).2 = specUniformWrites g ∧
    ∀ e ∈ (renderGradientGLUniform g).2, e.littleEndian = true := by
  have hlen : ((sortStops g.stops).take MAX_STOPS).length = min g.stops.length MAX_STOPS := by
    rw [List.length_take, sortStops, List.length_insertionSort, Nat.min_comm]
  have hwrites : (renderGradientGLUniform g).2 = specUniformWrites g := by
    simp only [renderGradientGLUniform, specUniformWrites, packStopsLoop, hlen]
    rw [packStopsLoop_fold_eq]
    simp
  refine ⟨rfl, hwrites, ?_⟩
  rw [hwrites]
  intro e he
  rcases List.mem_append.mp he with hh | hb
  · simp only [List.mem_cons, List.not_mem_nil, or_false] at hh
    rcases hh with rfl | rfl | rfl | rfl <;> rfl
  · rcases List.mem_flatMap.mp hb with ⟨i, _, hrec⟩
    rcases hre : ((sortStops g.stops).take MAX_STOPS).get? i with _ | s <;>
      rw [hre] at hrec <;>
      simp only [specStopRecord, List.mem_cons, List.not_mem_nil, or_false] at hrec <;>
      rcases hrec with rfl | rfl | rfl | rfl <;> rfl

end InstantGradient
